import Mathlib

/- Verification of the workspace orchestration and run-lifecycle engine of the
   agent-dev-dashboard repository: a shallow embedding of src/app/utils.py,
   src/app/locks.py, src/app/git_ops.py, src/app/gates.py and the job bodies of
   src/app/main.py, with theorems settling the specified properties. -/

namespace Dashboard

/-- Decimal representation of a natural number as a list of characters,
modelling the Python rendering of an int inside an f-string. -/
def natDec (n : Nat) : List Char :=
  if n = 0 then ['0'] else ((Nat.digits 10 n).map Nat.digitChar).reverse

lemma digitChar_inj_lt {a b : Nat} (ha : a < 10) (hb : b < 10)
    (h : Nat.digitChar a = Nat.digitChar b) : a = b := by
  have key : ∀ x y : Fin 10, Nat.digitChar x.val = Nat.digitChar y.val → x = y := by decide
  exact congrArg Fin.val (key ⟨a, ha⟩ ⟨b, hb⟩ h)

lemma digitChar_ne_underscore {d : Nat} (hd : d < 10) : Nat.digitChar d ≠ '_' := by
  have key : ∀ x : Fin 10, Nat.digitChar x.val ≠ '_' := by decide
  exact key ⟨d, hd⟩

lemma map_digitChar_inj : ∀ {l₁ l₂ : List Nat},
    (∀ d ∈ l₁, d < 10) → (∀ d ∈ l₂, d < 10) →
    l₁.map Nat.digitChar = l₂.map Nat.digitChar → l₁ = l₂
  | [], [], _, _, _ => rfl
  | [], _ :: _, _, _, h => by simp at h
  | _ :: _, [], _, _, h => by simp at h
  | a :: l₁, b :: l₂, h₁, h₂, h => by
    simp only [List.map_cons, List.cons.injEq] at h
    have ha : a < 10 := h₁ a (List.mem_cons_self _ _)
    have hb : b < 10 := h₂ b (List.mem_cons_self _ _)
    have hab : a = b := digitChar_inj_lt ha hb h.1
    have htail : l₁ = l₂ :=
      map_digitChar_inj (fun d hd => h₁ d (List.mem_cons_of_mem _ hd))
        (fun d hd => h₂ d (List.mem_cons_of_mem _ hd)) h.2
    rw [hab, htail]

lemma natDec_nonzero_ne_zero_list {n : Nat} (hn : n ≠ 0) :
    ((Nat.digits 10 n).map Nat.digitChar).reverse ≠ ['0'] := by
  intro h
  have hlen : (Nat.digits 10 n).length = 1 := by
    have := congrArg List.length h
    simpa using this
  obtain ⟨d, hd⟩ := List.length_eq_one.mp hlen
  rw [hd] at h
  simp only [List.map_cons, List.map_nil, List.reverse_cons, List.reverse_nil,
    List.nil_append, List.cons.injEq, and_true] at h
  have hdlt : d < 10 := Nat.digits_lt_base (by norm_num) (by rw [hd]; exact List.mem_cons_self _ _)
  have hd0 : d = 0 := digitChar_inj_lt hdlt (by norm_num) (h.trans (by decide))
  have hofd := Nat.ofDigits_digits 10 n
  rw [hd, hd0] at hofd
  simp [Nat.ofDigits] at hofd
  omega

lemma natDec_inj {a b : Nat} (h : natDec a = natDec b) : a = b := by
  unfold natDec at h
  by_cases ha : a = 0 <;> by_cases hb : b = 0
  · rw [ha, hb]
  · rw [if_pos ha, if_neg hb] at h
    exact absurd h.symm (natDec_nonzero_ne_zero_list hb)
  · rw [if_neg ha, if_pos hb] at h
    exact absurd h (natDec_nonzero_ne_zero_list ha)
  · rw [if_neg ha, if_neg hb] at h
    have hmap : (Nat.digits 10 a).map Nat.digitChar = (Nat.digits 10 b).map Nat.digitChar :=
      List.reverse_injective h
    have hdig : Nat.digits 10 a = Nat.digits 10 b :=
      map_digitChar_inj (fun d hd => Nat.digits_lt_base (by norm_num) hd)
        (fun d hd => Nat.digits_lt_base (by norm_num) hd) hmap
    exact Nat.digits_inj_iff.mp hdig

lemma natDec_no_underscore {n : Nat} : ∀ c ∈ natDec n, c ≠ '_' := by
  intro c hc
  unfold natDec at hc
  by_cases h : n = 0
  · rw [if_pos h] at hc
    simp only [List.mem_singleton] at hc
    rw [hc]; decide
  · rw [if_neg h] at hc
    simp only [List.mem_reverse, List.mem_map] at hc
    obtain ⟨d, hd, hdc⟩ := hc
    rw [← hdc]
    exact digitChar_ne_underscore (Nat.digits_lt_base (by norm_num) hd)

lemma natDec_all_digit {n : Nat} : ∀ c ∈ natDec n, c.isDigit = true := by
  intro c hc
  unfold natDec at hc
  by_cases h : n = 0
  · rw [if_pos h] at hc
    simp only [List.mem_singleton] at hc
    rw [hc]; decide
  · rw [if_neg h] at hc
    simp only [List.mem_reverse, List.mem_map] at hc
    obtain ⟨d, hd, hdc⟩ := hc
    rw [← hdc]
    have hdlt : d < 10 := Nat.digits_lt_base (by norm_num) hd
    have key : ∀ x : Fin 10, (Nat.digitChar x.val).isDigit = true := by decide
    exact key ⟨d, hdlt⟩

lemma append_underscore_inj : ∀ {l₁ l₂ t₁ t₂ : List Char},
    (∀ c ∈ l₁, c ≠ '_') → (∀ c ∈ l₂, c ≠ '_') →
    l₁ ++ '_' :: t₁ = l₂ ++ '_' :: t₂ → l₁ = l₂ ∧ t₁ = t₂
  | [], [], _, _, _, _, h => by simpa using h
  | [], c :: l₂, _, _, _, h₂, h => by
    simp only [List.nil_append, List.cons_append, List.cons.injEq] at h
    exact absurd h.1.symm (h₂ c (List.mem_cons_self _ _))
  | c :: l₁, [], _, _, h₁, _, h => by
    simp only [List.nil_append, List.cons_append, List.cons.injEq] at h
    exact absurd h.1 (h₁ c (List.mem_cons_self _ _))
  | a :: l₁, b :: l₂, t₁, t₂, h₁, h₂, h => by
    simp only [List.cons_append, List.cons.injEq] at h
    have hrec := append_underscore_inj
      (fun c hc => h₁ c (List.mem_cons_of_mem _ hc))
      (fun c hc => h₂ c (List.mem_cons_of_mem _ hc)) h.2
    exact ⟨by rw [h.1, hrec.1], hrec.2⟩

/-- Characters matched by the Python regex whitespace class in the ASCII range
(space, tab, newline, carriage return, vertical tab, form feed). -/
def pySpace (c : Char) : Bool :=
  c = ' ' || c = '\t' || c = '\n' || c = '\r' || c = '\x0b' || c = '\x0c'

/-- Model of the Python str.strip method: removes leading and trailing whitespace. -/
def pyStrip (l : List Char) : List Char :=
  ((l.dropWhile pySpace).reverse.dropWhile pySpace).reverse

/-- Characters kept by the removal regex inside slugify: lowercase letters,
digits, hyphen, whitespace and underscore. -/
def slugKeep (c : Char) : Bool :=
  ('a' ≤ c && c ≤ 'z') || ('0' ≤ c && c ≤ '9') || c = '-' || pySpace c || c = '_'

/-- One pass of run squashing: every maximal run of characters satisfying p is
replaced by the single character rep. This models re.sub with a one-class
plus pattern (and for rep equal to hyphen, the pattern matching two or more
hyphens, since squashing a singleton run leaves it unchanged). -/
def squashGo (p : Char → Bool) (rep : Char) : Bool → List Char → List Char
  | _, [] => []
  | inRun, c :: rest =>
    if p c then
      if inRun then squashGo p rep true rest
      else rep :: squashGo p rep true rest
    else c :: squashGo p rep false rest

def squashRuns (p : Char → Bool) (rep : Char) (l : List Char) : List Char :=
  squashGo p rep false l

/-- Model of utils.slugify: strip, lowercase, drop characters outside the kept
class, turn whitespace and underscore runs into single hyphens, collapse hyphen
runs, truncate to 60 characters, and fall back to the constant item when empty. -/
def slugify (s : List Char) : List Char :=
  let s₁ := (pyStrip s).map Char.toLower
  let s₂ := s₁.filter slugKeep
  let s₃ := squashRuns (fun c => pySpace c || c = '_') '-' s₂
  let s₄ := squashRuns (fun c => c = '-') '-' s₃
  let s₅ := s₄.take 60
  if s₅.isEmpty then "item".toList else s₅

/-- Model of the Python format spec 04d applied to a natural number:
left-pad the decimal representation with zeros to width four. -/
def pad4 (n : Nat) : List Char :=
  List.replicate (4 - (natDec n).length) '0' ++ natDec n

/-- Model of utils.branch_name_for_slice. -/
def branch_name_for_slice (slice_id : Nat) (title : String) : String :=
  String.mk ("slice/".toList ++ pad4 slice_id ++ '-' :: slugify title.toList)

/-- Characters allowed in a finished slug: lowercase ASCII letters, digits, hyphen. -/
def slugChar (c : Char) : Bool :=
  ('a' ≤ c && c ≤ 'z') || ('0' ≤ c && c ≤ '9') || c = '-'

lemma squashGo_chars (p : Char → Bool) (rep : Char) :
    ∀ (l : List Char) (b : Bool), ∀ c ∈ squashGo p rep b l, c = rep ∨ (c ∈ l ∧ p c = false)
  | [], _ => by intro c hc; simp [squashGo] at hc
  | x :: rest, b => by
    intro c hc
    unfold squashGo at hc
    by_cases hx : p x
    · rw [if_pos hx] at hc
      by_cases hb : b
      · rw [if_pos hb] at hc
        rcases squashGo_chars p rep rest true c hc with h | h
        · exact Or.inl h
        · exact Or.inr ⟨List.mem_cons_of_mem _ h.1, h.2⟩
      · rw [if_neg hb] at hc
        rcases List.mem_cons.mp hc with h | h
        · exact Or.inl h
        · rcases squashGo_chars p rep rest true c h with h' | h'
          · exact Or.inl h'
          · exact Or.inr ⟨List.mem_cons_of_mem _ h'.1, h'.2⟩
    · rw [if_neg hx] at hc
      rcases List.mem_cons.mp hc with h | h
      · exact Or.inr ⟨by rw [h]; exact List.mem_cons_self _ _, by rw [h]; simpa using hx⟩
      · rcases squashGo_chars p rep rest false c h with h' | h'
        · exact Or.inl h'
        · exact Or.inr ⟨List.mem_cons_of_mem _ h'.1, h'.2⟩

lemma fallback_ne_nil : ∀ (l : List Char), (if l.isEmpty then "item".toList else l) ≠ []
  | [] => by decide
  | a :: t => by simp [List.isEmpty]

lemma fallback_length (l : List Char) (h : l.length ≤ 60) :
    (if l.isEmpty then "item".toList else l).length ≤ 60 := by
  cases l with
  | nil => decide
  | cons a t => simpa [List.isEmpty] using h

lemma fallback_chars (l : List Char) (h : ∀ c ∈ l, slugChar c = true) :
    ∀ c ∈ (if l.isEmpty then "item".toList else l), slugChar c = true := by
  cases l with
  | nil =>
    intro c hc
    have hitem : c ∈ "item".toList := by simpa using hc
    have : "item".toList = ['i', 't', 'e', 'm'] := rfl
    rw [this] at hitem
    simp only [List.mem_cons, List.not_mem_nil, or_false] at hitem
    rcases hitem with rfl | rfl | rfl | rfl
    · decide
    · decide
    · decide
    · decide
  | cons a t => simpa [List.isEmpty] using h

lemma slug_core_chars (s : List Char) :
    ∀ c ∈ squashRuns (fun c => c = '-') '-'
      (squashRuns (fun c => pySpace c || c = '_') '-'
        (((pyStrip s).map Char.toLower).filter slugKeep)), slugChar c = true := by
  intro c hc
  unfold squashRuns at hc
  rcases squashGo_chars _ '-' _ false c hc with h₄ | h₄
  · rw [h₄]; decide
  · rcases squashGo_chars _ '-' _ false c h₄.1 with h₃ | h₃
    · rw [h₃]; decide
    · have hkeep : slugKeep c = true := List.of_mem_filter h₃.1
      have hns := h₃.2
      simp only [Bool.or_eq_false_iff, decide_eq_false_iff_not] at hns
      simp only [slugKeep, Bool.or_eq_true, decide_eq_true_eq, Bool.and_eq_true] at hkeep
      simp only [slugChar, Bool.or_eq_true, decide_eq_true_eq, Bool.and_eq_true]
      rcases hkeep with ((((h₁ | h₁) | h₁) | h₁) | h₁)
      · exact Or.inl (Or.inl h₁)
      · exact Or.inl (Or.inr h₁)
      · exact Or.inr h₁
      · exact absurd h₁ (by simpa using hns.1)
      · exact absurd h₁ hns.2

lemma slugify_ne_nil (s : List Char) : slugify s ≠ [] := by
  simp only [slugify]
  exact fallback_ne_nil _

lemma slugify_length_le (s : List Char) : (slugify s).length ≤ 60 := by
  simp only [slugify]
  exact fallback_length _ (by rw [List.length_take]; exact min_le_left _ _)

lemma slugify_chars (s : List Char) : ∀ c ∈ slugify s, slugChar c = true := by
  simp only [slugify]
  exact fallback_chars _ (fun c hc => slug_core_chars s c (List.take_subset _ _ hc))

/-- C10: the branch name derived for a slice is the concatenation of the prefix
slice/, the zero-padded decimal slice id, a hyphen, and the slug of the title;
the slug is always non-empty, at most 60 characters long, and contains only
lowercase ASCII letters, digits, and hyphens, for every input title. -/
theorem branch_name_for_slice_shape (slice_id : Nat) (title : String) :
    branch_name_for_slice slice_id title
      = String.mk ("slice/".toList ++ pad4 slice_id ++ '-' :: slugify title.toList)
    ∧ slugify title.toList ≠ []
    ∧ (slugify title.toList).length ≤ 60
    ∧ ∀ c ∈ slugify title.toList, slugChar c = true :=
  ⟨rfl, slugify_ne_nil _, slugify_length_le _, slugify_chars _⟩

/-- Model of the Python replace of every slash by an underscore, applied to a
branch name inside create_worktree. -/
def replSlash (b : String) : List Char :=
  b.toList.map (fun c => if c = '/' then '_' else c)

/-- The single path component naming a worktree directory, as built by
git_ops.create_worktree from the run id and the branch name. -/
def wtDirName (run_id : Nat) (branch : String) : List Char :=
  'r' :: 'u' :: 'n' :: '_' :: (natDec run_id ++ '_' :: replSlash branch)

/-- Filesystem paths are modelled as lists of components of an absolute path,
outermost directory first. This step models pathlib resolve acting on one
component (no symbolic links): dot and empty components vanish, a double dot
pops the last component. -/
def resolveStep (acc : List (List Char)) (c : List Char) : List (List Char) :=
  if c = [] ∨ c = ['.'] then acc
  else if c = ['.', '.'] then acc.dropLast
  else acc ++ [c]

/-- Model of pathlib resolve on a component list. -/
def resolveComps (l : List (List Char)) : List (List Char) :=
  l.foldl resolveStep []

/-- A component is plain when it is none of empty, dot, or double dot, so that
resolution keeps it unchanged. -/
def plainComp (c : List Char) : Prop :=
  c ≠ [] ∧ c ≠ ['.'] ∧ c ≠ ['.', '.']

lemma plainComp_cons {c : Char} (t : List Char) (hc : c ≠ '.') : plainComp (c :: t) := by
  refine ⟨by simp, ?_, ?_⟩
  · intro h
    simp only [List.cons.injEq] at h
    exact hc h.1
  · intro h
    simp only [List.cons.injEq] at h
    exact hc h.1

lemma foldl_resolveStep_plain : ∀ (l : List (List Char)) (acc : List (List Char)),
    (∀ c ∈ l, plainComp c) → l.foldl resolveStep acc = acc ++ l
  | [], acc, _ => by simp
  | c :: l, acc, h => by
    have hc := h c (List.mem_cons_self _ _)
    have hstep : resolveStep acc c = acc ++ [c] := by
      unfold resolveStep
      rw [if_neg (not_or.mpr ⟨hc.1, hc.2.1⟩), if_neg hc.2.2]
    simp only [List.foldl_cons]
    rw [hstep, foldl_resolveStep_plain l _ (fun d hd => h d (List.mem_cons_of_mem _ hd))]
    simp

/-- The component naming the per-project directory under the workspace. -/
def projectComp (project_id : Nat) : List Char :=
  'p' :: 'r' :: 'o' :: 'j' :: 'e' :: 'c' :: 't' :: '_' :: natDec project_id

/-- The worktree path computed and returned by git_ops.create_worktree: the
resolved path workspace, project directory, worktrees directory, and the
run-and-branch component. It is a function of the project id, the run id and
the branch only, ws being the fixed resolved workspace directory. -/
def create_worktree_path (ws : List (List Char)) (project_id run_id : Nat)
    (branch : String) : List (List Char) :=
  resolveComps (ws ++ [projectComp project_id, "worktrees".toList, wtDirName run_id branch])

lemma create_worktree_path_plain (ws : List (List Char))
    (hws : ∀ c ∈ ws, plainComp c) (project_id run_id : Nat) (branch : String) :
    create_worktree_path ws project_id run_id branch
      = ws ++ [projectComp project_id, "worktrees".toList, wtDirName run_id branch] := by
  unfold create_worktree_path resolveComps
  refine (foldl_resolveStep_plain _ [] ?_).trans (by simp)
  intro c hc
  rcases List.mem_append.mp hc with hcw | hc₃
  · exact hws c hcw
  · simp only [List.mem_cons, List.not_mem_nil, or_false] at hc₃
    rcases hc₃ with rfl | rfl | rfl
    · exact plainComp_cons _ (by decide)
    · exact plainComp_cons _ (by decide)
    · exact plainComp_cons _ (by decide)

/-- C2: the worktree path returned by create_worktree is a deterministic
function of the project id, the run id and the branch (it is defined as one),
and any two calls with distinct run ids return distinct paths, for every pair
of project ids and branch names, including branch names containing slashes. -/
theorem create_worktree_path_distinct (ws : List (List Char))
    (hws : ∀ c ∈ ws, plainComp c) (p₁ p₂ r₁ r₂ : Nat) (b₁ b₂ : String)
    (hr : r₁ ≠ r₂) :
    create_worktree_path ws p₁ r₁ b₁ ≠ create_worktree_path ws p₂ r₂ b₂ := by
  intro h
  rw [create_worktree_path_plain ws hws, create_worktree_path_plain ws hws] at h
  have h₃ : [projectComp p₁, "worktrees".toList, wtDirName r₁ b₁]
      = [projectComp p₂, "worktrees".toList, wtDirName r₂ b₂] :=
    List.append_cancel_left h
  simp only [List.cons.injEq, and_true] at h₃
  have hn : wtDirName r₁ b₁ = wtDirName r₂ b₂ := h₃.2.2
  unfold wtDirName at hn
  simp only [List.cons.injEq, true_and] at hn
  have hsplit := append_underscore_inj natDec_no_underscore natDec_no_underscore hn
  exact hr (natDec_inj hsplit.1)

/-- C2 witness: concrete instantiation with an empty workspace path, two equal
project ids, branches containing a slash, and distinct run ids. -/
theorem create_worktree_path_distinct_witness :
    create_worktree_path [] 1 7 "feature/x" ≠ create_worktree_path [] 1 8 "feature/x" :=
  create_worktree_path_distinct [] (by intro c hc; simp at hc) 1 1 7 8
    "feature/x" "feature/x" (by decide)

/-- A file-system model for write_file: an association list from resolved
destination path to written content, newest write first. -/
abbrev Fs := List (List (List Char) × String)

/-- Resolution of a relative component list against an already resolved base,
modelling pathlib resolve of base slash rel: by List.foldl_append this equals
resolving the concatenated component list from scratch. -/
def resolveFrom (base : List (List Char)) (rel : List (List Char)) : List (List Char) :=
  rel.foldl resolveStep base

/-- The destination lies strictly inside the root: the root is a proper
ancestor, modelling the pathlib parents membership test on resolved paths. -/
def strictlyUnder (root p : List (List Char)) : Prop :=
  root.length < p.length ∧ p.take root.length = root

instance (root p : List (List Char)) : Decidable (strictlyUnder root p) := by
  unfold strictlyUnder; infer_instance

/-- Model of git_ops.write_file: resolve the worktree root and the requested
destination, raise GitError when the destination is neither the root nor
strictly inside it, and otherwise record the content at the resolved path.
The error branch happens before any directory creation or write. -/
def write_file (fs : Fs) (repo_or_wt : List (List Char)) (rel : List (List Char))
    (content : String) : Except String Fs :=
  let root := resolveComps repo_or_wt
  let p := resolveFrom root rel
  if ¬ strictlyUnder root p ∧ p ≠ root then
    .error "Illegal path write (escape detected)."
  else
    .ok ((p, content) :: fs)

/-- C9: for every relative path whose resolved destination is neither the
worktree root nor strictly inside it, write_file raises GitError and records
no write; for every relative path resolving strictly inside the root, it
records the content at the resolved destination. -/
theorem write_file_escape_guard (fs : Fs) (repo_or_wt rel : List (List Char))
    (content : String) :
    (¬ strictlyUnder (resolveComps repo_or_wt) (resolveFrom (resolveComps repo_or_wt) rel)
        ∧ resolveFrom (resolveComps repo_or_wt) rel ≠ resolveComps repo_or_wt →
      write_file fs repo_or_wt rel content = .error "Illegal path write (escape detected).")
    ∧ (strictlyUnder (resolveComps repo_or_wt) (resolveFrom (resolveComps repo_or_wt) rel) →
      write_file fs repo_or_wt rel content
        = .ok ((resolveFrom (resolveComps repo_or_wt) rel, content) :: fs)) := by
  constructor
  · intro h
    unfold write_file
    rw [if_pos h]
  · intro h
    unfold write_file
    rw [if_neg (fun hbad => hbad.1 h)]

/-- C9 witness: a destination escaping through a double-dot component is
refused, and a plain nested destination is written. -/
theorem write_file_escape_guard_witness :
    write_file [] ["home".toList, "wt".toList] ["..".toList, "evil".toList] "x"
      = .error "Illegal path write (escape detected)."
    ∧ write_file [] ["home".toList, "wt".toList] ["sub".toList, "f".toList] "x"
      = .ok [(["home".toList, "wt".toList, "sub".toList, "f".toList], "x")] :=
  ⟨(write_file_escape_guard [] ["home".toList, "wt".toList] ["..".toList, "evil".toList]
      "x").1 (by decide),
   (write_file_escape_guard [] ["home".toList, "wt".toList] ["sub".toList, "f".toList]
      "x").2 (by decide)⟩

/-- Exception value carrying the Python exception class name and its message. -/
structure PyExc where
  name : String
  msg : String
deriving DecidableEq

/-- Result of running a body under the file lock: either the lock timed out
before the marker could be claimed, or the body ran and finished with its
Except result. -/
inductive LockOutcome (α : Type) where
  | lockTimeout : LockOutcome α
  | finished : Except PyExc α → LockOutcome α

/-- Marker events observable on the lock file: an atomic exclusive-create
claim at a poll instant, and the removal performed in the finally block. -/
inductive LockEv where
  | claim : Nat → LockEv
  | remove : LockEv
deriving DecidableEq

/-- The polling loop of locks.file_lock over discrete poll instants: at
instant t the exclusive create succeeds exactly when avail t is true; after a
failed attempt at instant t the loop raises LockTimeout once t exceeds the
timeout, else sleeps one poll interval and retries at instant t plus one. The
fuel argument bounds the recursion and is instantiated large enough to cover
every instant the loop can reach. -/
def tryAcquire (avail : Nat → Bool) (timeout : Nat) : Nat → Nat → Option Nat
  | _, 0 => none
  | t, fuel + 1 =>
    if avail t then some t
    else if timeout < t then none
    else tryAcquire avail timeout (t + 1) fuel

/-- Model of locks.file_lock applied to a body already reduced to its Except
result: claim the marker by polling, run the protected section, and remove
the marker in the finally block on every exit path, exceptional or not. -/
def file_lock {α : Type} (avail : Nat → Bool) (timeout : Nat)
    (body : Except PyExc α) : LockOutcome α × List LockEv :=
  match tryAcquire avail timeout 0 (timeout + 2) with
  | none => (.lockTimeout, [])
  | some t => (.finished body, [.claim t, .remove])

lemma tryAcquire_none (avail : Nat → Bool) (timeout : Nat) :
    ∀ (fuel t : Nat), t ≤ timeout + 1 →
      (∀ u, t ≤ u → u ≤ timeout + 1 → avail u = false) →
      tryAcquire avail timeout t fuel = none
  | 0, _, _, _ => rfl
  | fuel + 1, t, ht, h => by
    unfold tryAcquire
    rw [if_neg (by rw [h t le_rfl ht]; exact Bool.false_ne_true)]
    by_cases hlt : timeout < t
    · rw [if_pos hlt]
    · rw [if_neg hlt]
      exact tryAcquire_none avail timeout fuel (t + 1) (by omega)
        (fun u hu₁ hu₂ => h u (by omega) hu₂)

lemma tryAcquire_some (avail : Nat → Bool) (timeout : Nat) :
    ∀ (fuel t t' : Nat), tryAcquire avail timeout t fuel = some t' →
      avail t' = true ∧ t ≤ t' ∧ ∀ u, t ≤ u → u < t' → avail u = false
  | 0, _, _, h => by simp [tryAcquire] at h
  | fuel + 1, t, t', h => by
    unfold tryAcquire at h
    by_cases ha : avail t
    · rw [if_pos ha] at h
      obtain rfl : t = t' := by simpa using h
      exact ⟨ha, le_rfl, fun u hu₁ hu₂ => absurd hu₁ (by omega)⟩
    · rw [if_neg ha] at h
      by_cases hlt : timeout < t
      · rw [if_pos hlt] at h; exact absurd h (by simp)
      · rw [if_neg hlt] at h
        obtain ⟨h₁, h₂, h₃⟩ := tryAcquire_some avail timeout fuel (t + 1) t' h
        refine ⟨h₁, by omega, fun u hu₁ hu₂ => ?_⟩
        by_cases hu : u = t
        · rw [hu]; exact Bool.eq_false_iff.mpr ha
        · exact h₃ u (by omega) hu₂

/-- C7: lock acquisition claims the exclusive marker only at an instant where
it is absent and only after every earlier instant was occupied; if the marker
cannot be claimed at any instant within the timeout window the call raises
LockTimeout without ever claiming; and whenever the marker was claimed, the
trace ends with its removal whatever the body did, exception included. -/
theorem file_lock_contract {α : Type} (avail : Nat → Bool) (timeout : Nat)
    (body : Except PyExc α) :
    ((∀ t, t ≤ timeout + 1 → avail t = false) →
      file_lock avail timeout body = (.lockTimeout, []))
    ∧ (∀ t, tryAcquire avail timeout 0 (timeout + 2) = some t →
      avail t = true ∧ (∀ u, u < t → avail u = false)
        ∧ file_lock avail timeout body = (.finished body, [.claim t, .remove])) := by
  constructor
  · intro h
    unfold file_lock
    rw [tryAcquire_none avail timeout (timeout + 2) 0 (by omega) (fun u _ hu => h u hu)]
  · intro t ht
    obtain ⟨h₁, _, h₃⟩ := tryAcquire_some avail timeout (timeout + 2) 0 t ht
    refine ⟨h₁, fun u hu => h₃ u (Nat.zero_le _) hu, ?_⟩
    unfold file_lock
    rw [ht]

/-- C7 witness: with the marker occupied at instants zero and one and free at
instant two, a raising body still ends with the marker removed; with the
marker always occupied, the call times out. -/
theorem file_lock_contract_witness :
    file_lock (fun t => t == 2) 5 (.error ⟨"ValueError", "boom"⟩ : Except PyExc Nat)
      = (.finished (.error ⟨"ValueError", "boom"⟩), [.claim 2, .remove])
    ∧ file_lock (fun _ => false) 5 (.ok 7 : Except PyExc Nat) = (.lockTimeout, []) :=
  ⟨((file_lock_contract (fun t => t == 2) 5
      (.error ⟨"ValueError", "boom"⟩ : Except PyExc Nat)).2 2 (by decide)).2.2,
   (file_lock_contract (fun _ => false) 5 (.ok 7 : Except PyExc Nat)).1
      (fun t _ => rfl)⟩

/-- Outcome of one external process invocation: completed with an exit code
and the merged captured output, or the hard timeout fired while producing
some partial captured output. -/
inductive ProcOutcome where
  | completed : Int → String → ProcOutcome
  | timedOut : String → ProcOutcome
deriving DecidableEq

/-- Typed errors escaping the command runner: GitError with its formatted
message, or the subprocess timeout error carrying the command vector and the
captured output. -/
inductive RunExc where
  | gitError : String → RunExc
  | timeoutExpired : List String → String → RunExc
deriving DecidableEq

/-- Python space-join of a command vector. -/
def joinSpace (cmd : List String) : String :=
  String.intercalate " " cmd

/-- Model of the private command runner of git_ops: return the captured text
on exit code zero, raise GitError embedding the joined command line and the
captured output on any non-zero exit, and on timeout let the subprocess
timeout error, which carries the command and its captured output, propagate. -/
def gitRun (cmd : List String) (oc : ProcOutcome) : Except RunExc String :=
  match oc with
  | .timedOut out => .error (.timeoutExpired cmd out)
  | .completed rc out =>
    if rc ≠ 0 then .error (.gitError ("Command failed: " ++ joinSpace cmd ++ "\n" ++ out))
    else .ok out

/-- C8: the command runner returns the captured combined output exactly on
exit code zero, and on any non-zero exit or on timeout raises a typed error
embedding the command line and the captured output. -/
theorem gitRun_contract (cmd : List String) :
    (∀ out : String, gitRun cmd (.completed 0 out) = .ok out)
    ∧ (∀ (rc : Int) (out : String), rc ≠ 0 →
      gitRun cmd (.completed rc out)
        = .error (.gitError ("Command failed: " ++ joinSpace cmd ++ "\n" ++ out)))
    ∧ (∀ out : String, gitRun cmd (.timedOut out) = .error (.timeoutExpired cmd out)) := by
  refine ⟨fun out => by simp [gitRun], fun rc out hrc => by simp [gitRun, hrc],
    fun out => rfl⟩

/-- C8 witness: a failing git status invocation produces a GitError whose
message embeds the command line and the captured output. -/
theorem gitRun_contract_witness :
    gitRun ["git", "status"] (.completed 1 "boom")
      = .error (.gitError ("Command failed: " ++ joinSpace ["git", "status"] ++ "\n" ++ "boom")) :=
  (gitRun_contract ["git", "status"]).2.1 1 "boom" (by decide)

lemma mem_dropWhile {p : Char → Bool} :
    ∀ {l : List Char} {c : Char}, c ∈ l → p c = false → c ∈ l.dropWhile p
  | [], _, hc, _ => absurd hc (List.not_mem_nil _)
  | x :: l, c, hc, hpc => by
    by_cases hx : p x
    · rw [List.dropWhile_cons_of_pos hx]
      rcases List.mem_cons.mp hc with rfl | hc'
      · rw [hx] at hpc; exact absurd hpc (by simp)
      · exact mem_dropWhile hc' hpc
    · rw [List.dropWhile_cons_of_neg hx]
      exact hc

lemma pyStrip_ne_nil {l : List Char} {c : Char} (hc : c ∈ l) (hcs : pySpace c = false) :
    pyStrip l ≠ [] := by
  unfold pyStrip
  have h₁ : c ∈ l.dropWhile pySpace := mem_dropWhile hc hcs
  have h₂ : c ∈ (l.dropWhile pySpace).reverse := List.mem_reverse.mpr h₁
  have h₃ : c ∈ (l.dropWhile pySpace).reverse.dropWhile pySpace := mem_dropWhile h₂ hcs
  have h₄ : c ∈ ((l.dropWhile pySpace).reverse.dropWhile pySpace).reverse :=
    List.mem_reverse.mpr h₃
  exact List.ne_nil_of_mem h₄

/-- Abstract state of one worktree checkout for the commit path: unstaged
pending changes, staged changes, and the list of commits, newest first. -/
structure WtState where
  pending : List String
  staged : List String
  commits : List String
deriving DecidableEq

/-- Model of the porcelain git status output: one line per changed path, a
non-blank status letter first, so the stripped output is empty exactly when
there is no pending or staged change. -/
def status_porcelain (st : WtState) : List Char :=
  ((st.pending ++ st.staged).map (fun f => 'M' :: ' ' :: (f.toList ++ ['\n']))).flatten

/-- Model of git rev-parse HEAD on the worktree: the hash is abstracted as
the number of commits. -/
def current_sha (st : WtState) : Nat :=
  st.commits.length

/-- Model of git add dash capital A: move every pending change to the index. -/
def gitAddAll (st : WtState) : WtState :=
  { st with pending := [], staged := st.staged ++ st.pending }

/-- Model of git commit dash m: turn the staged changes into a new commit; a
commit with an empty index would fail, modelled as leaving the state as is. -/
def gitCommit (st : WtState) (message : String) : WtState :=
  if st.staged = [] then st
  else { pending := st.pending, staged := [], commits := message :: st.commits }

/-- Events emitted by commit_all, recording which git mutations run between
the lock acquire and the lock release. -/
inductive CommitEv where
  | lockAcquire
  | gitAddEv
  | gitCommitEv
  | lockRelease
deriving DecidableEq

/-- Model of git_ops.commit_all: when the stripped porcelain status is empty,
return the current HEAD hash without touching the repository; otherwise,
under the project lock, stage everything and commit, returning the new HEAD
hash. -/
def commit_all (st : WtState) (message : String) : (WtState × Nat) × List CommitEv :=
  if pyStrip (status_porcelain st) = [] then ((st, current_sha st), [])
  else
    let st₂ := gitCommit (gitAddAll st) message
    ((st₂, current_sha st₂), [.lockAcquire, .gitAddEv, .gitCommitEv, .lockRelease])

lemma status_porcelain_strip_ne {st : WtState} (h : st.pending ++ st.staged ≠ []) :
    pyStrip (status_porcelain st) ≠ [] := by
  obtain ⟨f, rest, hfr⟩ : ∃ f rest, st.pending ++ st.staged = f :: rest := by
    cases hc : st.pending ++ st.staged with
    | nil => exact absurd hc h
    | cons f rest => exact ⟨f, rest, rfl⟩
  have hm : 'M' ∈ status_porcelain st := by
    unfold status_porcelain
    rw [hfr]
    simp
  exact pyStrip_ne_nil hm (by decide)

/-- C4: on a worktree with no pending changes commit_all returns the current
HEAD hash and creates no commit and takes no lock; on a worktree with pending
changes it stages and commits exactly one new commit between the lock acquire
and the lock release, and returns the new HEAD hash. -/
theorem commit_all_contract (st : WtState) (message : String) :
    (st.pending = [] ∧ st.staged = [] →
      commit_all st message = ((st, current_sha st), []))
    ∧ (st.pending ≠ [] ∨ st.staged ≠ [] →
      (commit_all st message).1.1.commits = message :: st.commits
      ∧ (commit_all st message).1.2 = current_sha (commit_all st message).1.1
      ∧ (commit_all st message).1.2 = st.commits.length + 1
      ∧ (commit_all st message).2
          = [.lockAcquire, .gitAddEv, .gitCommitEv, .lockRelease]) := by
  constructor
  · rintro ⟨h₁, h₂⟩
    unfold commit_all
    rw [if_pos (by simp [status_porcelain, h₁, h₂, pyStrip])]
  · intro hne
    have hps : st.pending ++ st.staged ≠ [] := by
      intro h
      rcases List.append_eq_nil.mp h with ⟨ha, hb⟩
      rcases hne with h' | h'
      · exact h' ha
      · exact h' hb
    have hsp : st.staged ++ st.pending ≠ [] := by
      intro h
      rcases List.append_eq_nil.mp h with ⟨ha, hb⟩
      rcases hne with h' | h'
      · exact h' hb
      · exact h' ha
    have hgc : gitCommit (gitAddAll st) message
        = { pending := [], staged := [], commits := message :: st.commits } := by
      unfold gitCommit gitAddAll
      simp only []
      rw [if_neg hsp]
    unfold commit_all
    rw [if_neg (status_porcelain_strip_ne hps)]
    refine ⟨by rw [hgc], rfl, by rw [hgc]; rfl, rfl⟩

/-- C4 witness: a clean worktree keeps its head and history; a worktree with
one pending change gains exactly one commit under the lock. -/
theorem commit_all_contract_witness :
    commit_all ⟨[], [], ["c0"]⟩ "m" = ((⟨[], [], ["c0"]⟩, 1), [])
    ∧ (commit_all ⟨["f.txt"], [], ["c0"]⟩ "m").1.1.commits = ["m", "c0"]
    ∧ (commit_all ⟨["f.txt"], [], ["c0"]⟩ "m").1.2 = 2
    ∧ (commit_all ⟨["f.txt"], [], ["c0"]⟩ "m").2
        = [.lockAcquire, .gitAddEv, .gitCommitEv, .lockRelease] := by
  refine ⟨(commit_all_contract ⟨[], [], ["c0"]⟩ "m").1 ⟨rfl, rfl⟩, ?_, ?_, ?_⟩
  · exact ((commit_all_contract ⟨["f.txt"], [], ["c0"]⟩ "m").2 (Or.inl (by simp))).1
  · exact ((commit_all_contract ⟨["f.txt"], [], ["c0"]⟩ "m").2 (Or.inl (by simp))).2.2.1
  · exact ((commit_all_contract ⟨["f.txt"], [], ["c0"]⟩ "m").2 (Or.inl (by simp))).2.2.2

/-- Outcome of one gate command: it ran and returned an exit code with the
merged captured output, or it raised an exception rendered to a message. -/
inductive GateOutcome where
  | ran : Int → String → GateOutcome
  | raised : String → GateOutcome
deriving DecidableEq

/-- One gate result row: check name, pass or fail status, captured output. -/
structure GateResult where
  name : String
  status : String
  output : String
deriving DecidableEq

/-- Model of utils.clamp_text: truncate to a bounded size, appending a
truncation marker. -/
def clamp_text (s : String) (max_chars : Nat) : String :=
  if s.length ≤ max_chars then s
  else String.mk (s.toList.take max_chars) ++ "\n...<truncated>..."

/-- The fixed ordered gate battery of gates.py. -/
def DEFAULT_GATES : List (String × List String) :=
  [("lint", ["make", "lint"]), ("type", ["make", "type"]),
   ("contract", ["make", "contract"]), ("test", ["make", "test"])]

/-- One iteration of the run_gates loop: run the gate command, derive pass or
fail strictly from the exit code, and catch any raised exception as a fail
result for this gate alone. -/
def gateStep (env : String × List String → GateOutcome)
    (g : String × List String) : GateResult :=
  match env g with
  | .ran code out => ⟨g.1, if code = 0 then "pass" else "fail", clamp_text out 15000⟩
  | .raised msg => ⟨g.1, "fail", clamp_text msg 15000⟩

/-- Model of gates.run_gates over an environment giving each gate command its
outcome: the loop appends one result per configured gate, in order, with no
short-circuiting. -/
def run_gates (env : String × List String → GateOutcome) : List GateResult :=
  DEFAULT_GATES.map (gateStep env)

lemma gateStep_name (env : String × List String → GateOutcome)
    (g : String × List String) : (gateStep env g).name = g.1 := by
  unfold gateStep
  cases env g with
  | ran code out => rfl
  | raised msg => rfl

/-- C5: for every combination of per-check outcomes, including raised
exceptions, run_gates returns exactly one result per configured check name,
in the configured order lint, type, contract, test; an earlier failure or
exception never prevents a later check from reporting. -/
theorem run_gates_complete (env : String × List String → GateOutcome) :
    (run_gates env).map GateResult.name = ["lint", "type", "contract", "test"]
    ∧ (run_gates env).length = DEFAULT_GATES.length := by
  constructor
  · unfold run_gates
    rw [List.map_map]
    have h : DEFAULT_GATES.map (GateResult.name ∘ gateStep env)
        = DEFAULT_GATES.map Prod.fst := by
      refine List.map_congr_left ?_
      intro g _
      exact gateStep_name env g
    rw [h]
    rfl
  · unfold run_gates
    rw [List.length_map]

/-- One row of the runs table, restricted to the fields the claims are about. -/
structure RunRec where
  id : Nat
  role : String
  status : String
  log : String
  worktree : String
deriving DecidableEq

/-- The persistent state touched by the dispatch handlers and their job
bodies: the id counter of the runs table, the runs rows, the status of the
slice being acted on, the gate rows, and the context pack count of the
slice. -/
structure Db where
  nextId : Nat
  runs : List RunRec
  sliceStatus : String
  gates : List (Nat × String × String)
  packs : Nat
deriving DecidableEq

/-- SQL insert into the runs table: assigns the next id and returns it. -/
def insertRun (db : Db) (role status log : String) : Db × Nat :=
  ({ db with nextId := db.nextId + 1,
             runs := db.runs ++ [⟨db.nextId, role, status, log, ""⟩] }, db.nextId)

/-- SQL update of the run row with the given id. -/
def updateRun (db : Db) (rid : Nat) (f : RunRec → RunRec) : Db :=
  { db with runs := db.runs.map (fun r => if r.id = rid then f r else r) }

/-- SQL select of the run row with the given id. -/
def getRun (db : Db) (rid : Nat) : Option RunRec :=
  db.runs.find? (fun r => r.id == rid)

/-- SQL update of the slice status. -/
def setSlice (db : Db) (s : String) : Db :=
  { db with sliceStatus := s }

/-- SQL insert of one gate result row for a run. -/
def insertGate (db : Db) (rid : Nat) (name status : String) : Db :=
  { db with gates := db.gates ++ [(rid, name, status)] }

/-- Rendering of a caught Python exception as written into a failed log:
class name, colon, message. -/
def excLog (e : PyExc) : String :=
  e.name ++ ": " ++ e.msg

/-- The terminal failure write every guarded job body performs in its except
clause. -/
def failRun (db : Db) (rid : Nat) (e : PyExc) : Db :=
  updateRun db rid (fun r => { r with status := "failed", log := excLog e })

lemma find?_append_of_none {α : Type} {p : α → Bool} :
    ∀ {l₁ l₂ : List α}, (∀ r ∈ l₁, p r = false) → (l₁ ++ l₂).find? p = l₂.find? p
  | [], _, _ => rfl
  | x :: l₁, l₂, h => by
    rw [List.cons_append, List.find?_cons_of_neg _ (by rw [h x (List.mem_cons_self _ _)]; simp),
      find?_append_of_none (fun r hr => h r (List.mem_cons_of_mem _ hr))]

lemma getRun_insertRun (db : Db) (role status log : String)
    (hfresh : ∀ r ∈ db.runs, r.id < db.nextId) :
    getRun (insertRun db role status log).1 (insertRun db role status log).2
      = some ⟨db.nextId, role, status, log, ""⟩ := by
  unfold getRun insertRun
  simp only
  rw [find?_append_of_none (fun r hr => by
    have := hfresh r hr
    simp only [beq_eq_false_iff_ne, ne_eq]
    omega)]
  rw [List.find?_cons_of_pos _ (by simp)]

lemma getRun_updateRun (db : Db) (rid : Nat) (f : RunRec → RunRec)
    (hid : ∀ r, (f r).id = r.id) :
    getRun (updateRun db rid f) rid = (getRun db rid).map f := by
  unfold getRun updateRun
  simp only
  induction db.runs with
  | nil => rfl
  | cons r l ih =>
    by_cases hr : r.id = rid
    · rw [List.map_cons, if_pos hr,
        List.find?_cons_of_pos _ (by rw [hid r]; simp [hr]),
        List.find?_cons_of_pos _ (by simp [hr])]
      rfl
    · rw [List.map_cons, if_neg hr,
        List.find?_cons_of_neg _ (by simp [hr]),
        List.find?_cons_of_neg _ (by simp [hr])]
      exact ih

lemma getRun_runs_congr {db₁ db₂ : Db} (h : db₁.runs = db₂.runs) (rid : Nat) :
    getRun db₁ rid = getRun db₂ rid := by
  unfold getRun
  rw [h]

lemma getRun_setSlice (db : Db) (s : String) (rid : Nat) :
    getRun (setSlice db s) rid = getRun db rid :=
  rfl

/-- The external effects the context pack job performs, each fallible. -/
structure CtxEnv where
  clone : Except PyExc Unit
  createWt : Except PyExc String
  buildPack : Except PyExc String

/-- Model of the job body of main.gen_context_pack. There is no exception
handler in this body: the second component of the result is the exception
escaping the job, if any, and the first is the database state left behind at
that point. The run row is created inside the job, directly in status
running, after the clone step. -/
def gen_context_pack_job (env : CtxEnv) (db : Db) : Db × Option PyExc :=
  match env.clone with
  | .error e => (db, some e)
  | .ok _ =>
    let ins := insertRun db "context_pack" "running" "generating context pack"
    match env.createWt with
    | .error e => (ins.1, some e)
    | .ok wt =>
      let db₂ := updateRun ins.1 ins.2 (fun r => { r with worktree := wt })
      match env.buildPack with
      | .error e => (db₂, some e)
      | .ok _ =>
        let version := db₂.packs + 1
        let db₃ := { db₂ with packs := version }
        let db₄ := updateRun db₃ ins.2 (fun r =>
          { r with status := "success",
                   log := "context pack v" ++ String.mk (natDec version) ++ " created" })
        (setSlice db₄ "ContextReady", none)

/-- Model of the dispatch handler main.gen_context_pack: it performs no
database write before handing the closure to the scheduler; the whole body
above is the submitted closure. -/
def gen_context_pack_dispatch (db : Db) : Db × (CtxEnv → Db → Db × Option PyExc) :=
  (db, gen_context_pack_job)

/-- Pre-submit part of the dispatch handler main.run_role: insert the run row
in status queued with the initial log before the scheduler submission. -/
def run_role_dispatch (db : Db) (role : String) : Db × Nat :=
  insertRun db role "queued" "queued"

/-- Pre-submit part of the dispatch handler main.run_slice_gates. -/
def run_slice_gates_dispatch (db : Db) : Db × Nat :=
  insertRun db "gates" "queued" "queued"

/-- Pre-submit part of the dispatch handler main.push_slice_branch. -/
def push_slice_branch_dispatch (db : Db) : Db × Nat :=
  insertRun db "push" "queued" "queued"

/-- Pre-submit part of the dispatch handler main.create_or_update_pr. -/
def create_or_update_pr_dispatch (db : Db) : Db × Nat :=
  insertRun db "pr" "queued" "queued"

/-- An empty initial database with id counter one, as after table creation. -/
def db0 : Db :=
  ⟨1, [], "Draft", [], 0⟩

/-- A context pack environment in which clone and worktree creation succeed
and the pack builder raises. -/
def ctxEnvBad : CtxEnv :=
  ⟨.ok (), .ok "wt", .error ⟨"ValueError", "boom"⟩⟩

/-- C1, failing input: when the pack builder raises inside the context pack
job body, the exception escapes the job and the run row is left in the
non-terminal status running with its initial log, not in status failed with
the exception category and message. -/
theorem gen_context_pack_job_stuck_running :
    (gen_context_pack_job ctxEnvBad db0).2 = some ⟨"ValueError", "boom"⟩
    ∧ getRun (gen_context_pack_job ctxEnvBad db0).1 1
        = some ⟨1, "context_pack", "running", "generating context pack", "wt"⟩ := by
  constructor
  · rfl
  · rfl

/-- C3, counterexample: on the context pack dispatch path, at the moment the
closure is handed to the scheduler the database contains no run row at all,
so no run row in status queued exists before the submission returns. -/
theorem gen_context_pack_dispatch_no_queued_run :
    (gen_context_pack_dispatch db0).1.runs = [] :=
  rfl

/-- C3, amended: on the role, gates, push and pull request dispatch paths, a
run row in status queued with the initial log queued exists in the database
returned to the scheduler submission, bearing the id handed to the job. -/
theorem dispatch_creates_queued_run (db : Db) (role : String)
    (hfresh : ∀ r ∈ db.runs, r.id < db.nextId) :
    getRun (run_role_dispatch db role).1 (run_role_dispatch db role).2
      = some ⟨db.nextId, role, "queued", "queued", ""⟩
    ∧ getRun (run_slice_gates_dispatch db).1 (run_slice_gates_dispatch db).2
      = some ⟨db.nextId, "gates", "queued", "queued", ""⟩
    ∧ getRun (push_slice_branch_dispatch db).1 (push_slice_branch_dispatch db).2
      = some ⟨db.nextId, "push", "queued", "queued", ""⟩
    ∧ getRun (create_or_update_pr_dispatch db).1 (create_or_update_pr_dispatch db).2
      = some ⟨db.nextId, "pr", "queued", "queued", ""⟩ :=
  ⟨getRun_insertRun db role "queued" "queued" hfresh,
   getRun_insertRun db "gates" "queued" "queued" hfresh,
   getRun_insertRun db "push" "queued" "queued" hfresh,
   getRun_insertRun db "pr" "queued" "queued" hfresh⟩

/-- C3 witness: the amended dispatch property at the empty database and the
dev role. -/
theorem dispatch_creates_queued_run_witness :
    getRun (run_role_dispatch db0 "dev").1 (run_role_dispatch db0 "dev").2
      = some ⟨1, "dev", "queued", "queued", ""⟩ :=
  (dispatch_creates_queued_run db0 "dev"
    (fun r hr => absurd hr (List.not_mem_nil _))).1

/-- The external effects the gates job performs: cloning, worktree creation,
the per-gate command outcomes, the pull request context of the slice, and the
result of the optional pull request comment call. -/
structure GatesEnv where
  clone : Except PyExc Unit
  createWt : Except PyExc String
  gateEnv : String × List String → GateOutcome
  prNumber : Option Nat
  ghOwner : Option String
  ghRepo : Option String
  commentRes : Except PyExc Unit

/-- Model of the job body of main.run_slice_gates: move the run to running,
refresh the clone, create the worktree, run every gate, insert one gate row
per result, mark the run success, update the slice status from the aggregate
gate outcome, then optionally comment on the pull request, a comment failure
only rewriting the log; any exception from clone or worktree creation is
caught by the outer handler which writes the terminal failed status. -/
def run_slice_gates_job (env : GatesEnv) (db : Db) (rid : Nat) : Db :=
  let dbr := updateRun db rid (fun r => { r with status := "running" })
  match env.clone with
  | .error e => failRun dbr rid e
  | .ok _ =>
    match env.createWt with
    | .error e => failRun dbr rid e
    | .ok wt =>
      let db₁ := updateRun dbr rid (fun r => { r with worktree := wt })
      let results := run_gates env.gateEnv
      let db₂ := results.foldl (fun d r => insertGate d rid r.name r.status) db₁
      let db₃ := updateRun db₂ rid
        (fun r => { r with status := "success", log := "gates finished" })
      let db₄ := setSlice db₃
        (if results.all (fun r => r.status == "pass") then "CIPassed" else "CIFailed")
      match env.prNumber, env.ghOwner, env.ghRepo with
      | some _, some _, some _ =>
        match env.commentRes with
        | .ok _ => db₄
        | .error ce => updateRun db₄ rid (fun r =>
            { r with log := "gates finished; PR comment failed: " ++ excLog ce })
      | _, _, _ => db₄

lemma gates_foldl_insert (rid : Nat) :
    ∀ (l : List GateResult) (db : Db),
      (l.foldl (fun d r => insertGate d rid r.name r.status) db).runs = db.runs
      ∧ (l.foldl (fun d r => insertGate d rid r.name r.status) db).sliceStatus
          = db.sliceStatus
      ∧ (l.foldl (fun d r => insertGate d rid r.name r.status) db).gates
          = db.gates ++ l.map (fun r => (rid, r.name, r.status))
  | [], db => ⟨rfl, rfl, by simp⟩
  | r :: l, db => by
    have ih := gates_foldl_insert rid l (insertGate db rid r.name r.status)
    refine ⟨ih.1, ih.2.1, ?_⟩
    rw [List.foldl_cons, ih.2.2]
    simp [insertGate]

/-- C6: when clone or worktree creation raises, the gates job ends the run in
status failed and performs no slice status update; when both succeed, the run
ends in status success, the slice status is set to CIPassed exactly when every
gate result of this run passed and to CIFailed otherwise, and the inserted
gate rows of the run are exactly the gate results in order. -/
theorem run_slice_gates_slice_update (env : GatesEnv) (db : Db)
    (hfresh : ∀ r ∈ db.runs, r.id < db.nextId) :
    ((∃ e, env.clone = .error e) ∨ (∃ e, env.createWt = .error e) →
      (getRun (run_slice_gates_job env (run_slice_gates_dispatch db).1
          (run_slice_gates_dispatch db).2) (run_slice_gates_dispatch db).2).map
            RunRec.status = some "failed"
      ∧ (run_slice_gates_job env (run_slice_gates_dispatch db).1
          (run_slice_gates_dispatch db).2).sliceStatus = db.sliceStatus)
    ∧ (env.clone = .ok () ∧ (∃ wt, env.createWt = .ok wt) →
      (getRun (run_slice_gates_job env (run_slice_gates_dispatch db).1
          (run_slice_gates_dispatch db).2) (run_slice_gates_dispatch db).2).map
            RunRec.status = some "success"
      ∧ (run_slice_gates_job env (run_slice_gates_dispatch db).1
          (run_slice_gates_dispatch db).2).sliceStatus
        = (if (run_gates env.gateEnv).all (fun r => r.status == "pass")
            then "CIPassed" else "CIFailed")
      ∧ (run_slice_gates_job env (run_slice_gates_dispatch db).1
          (run_slice_gates_dispatch db).2).gates
        = db.gates ++ (run_gates env.gateEnv).map
            (fun r => ((run_slice_gates_dispatch db).2, r.name, r.status))) := by
  have hq : getRun (run_slice_gates_dispatch db).1 (run_slice_gates_dispatch db).2
      = some ⟨db.nextId, "gates", "queued", "queued", ""⟩ :=
    getRun_insertRun db "gates" "queued" "queued" hfresh
  constructor
  · intro hbad
    have hfail : ∀ (e : PyExc),
        getRun (failRun (updateRun (run_slice_gates_dispatch db).1
            (run_slice_gates_dispatch db).2 (fun r => { r with status := "running" }))
          (run_slice_gates_dispatch db).2 e) (run_slice_gates_dispatch db).2
          = some ⟨db.nextId, "gates", "failed", excLog e, ""⟩ := by
      intro e
      unfold failRun
      rw [getRun_updateRun _ _
          (fun r => { r with status := "failed", log := excLog e }) (fun r => rfl),
        getRun_updateRun _ _
          (fun r => { r with status := "running" }) (fun r => rfl), hq]
      rfl
    rcases hbad with ⟨e, he⟩ | ⟨e, he⟩
    · unfold run_slice_gates_job
      rw [he]
      exact ⟨by rw [hfail e]; rfl, rfl⟩
    · unfold run_slice_gates_job
      cases hc : env.clone with
      | error e' => exact ⟨by rw [hfail e']; rfl, rfl⟩
      | ok u => rw [he]; exact ⟨by rw [hfail e]; rfl, rfl⟩
  · rintro ⟨hc, wt, hw⟩
    unfold run_slice_gates_job
    rw [hc, hw]
    have hrun : getRun ((run_gates env.gateEnv).foldl
        (fun d r => insertGate d (run_slice_gates_dispatch db).2 r.name r.status)
        (updateRun (updateRun (run_slice_gates_dispatch db).1
            (run_slice_gates_dispatch db).2 (fun r => { r with status := "running" }))
          (run_slice_gates_dispatch db).2 (fun r => { r with worktree := wt })))
        (run_slice_gates_dispatch db).2
        = some ⟨db.nextId, "gates", "running", "queued", wt⟩ := by
      rw [getRun_runs_congr (gates_foldl_insert _ _ _).1,
        getRun_updateRun _ _ (fun r => { r with worktree := wt }) (fun r => rfl),
        getRun_updateRun _ _ (fun r => { r with status := "running" }) (fun r => rfl), hq]
      rfl
    have hsucc : getRun (updateRun ((run_gates env.gateEnv).foldl
        (fun d r => insertGate d (run_slice_gates_dispatch db).2 r.name r.status)
        (updateRun (updateRun (run_slice_gates_dispatch db).1
            (run_slice_gates_dispatch db).2 (fun r => { r with status := "running" }))
          (run_slice_gates_dispatch db).2 (fun r => { r with worktree := wt })))
        (run_slice_gates_dispatch db).2
        (fun r => { r with status := "success", log := "gates finished" }))
        (run_slice_gates_dispatch db).2
        = some ⟨db.nextId, "gates", "success", "gates finished", wt⟩ := by
      rw [getRun_updateRun _ _
        (fun r => { r with status := "success", log := "gates finished" }) (fun r => rfl),
        hrun]
      rfl
    have hfold := gates_foldl_insert (run_slice_gates_dispatch db).2
      (run_gates env.gateEnv)
      (updateRun (updateRun (run_slice_gates_dispatch db).1
          (run_slice_gates_dispatch db).2 (fun r => { r with status := "running" }))
        (run_slice_gates_dispatch db).2 (fun r => { r with worktree := wt }))
    rcases env.prNumber with _ | pn
    · exact ⟨by rw [getRun_setSlice, hsucc]; rfl, rfl, hfold.2.2⟩
    · rcases env.ghOwner with _ | go
      · exact ⟨by rw [getRun_setSlice, hsucc]; rfl, rfl, hfold.2.2⟩
      · rcases env.ghRepo with _ | gr
        · exact ⟨by rw [getRun_setSlice, hsucc]; rfl, rfl, hfold.2.2⟩
        · cases hcm : env.commentRes with
          | ok u => exact ⟨by rw [getRun_setSlice, hsucc]; rfl, rfl, hfold.2.2⟩
          | error ce =>
            refine ⟨?_, rfl, ?_⟩
            · rw [getRun_updateRun _ _
                (fun r =>
                  { r with log := "gates finished; PR comment failed: " ++ excLog ce })
                (fun r => rfl), getRun_setSlice, hsucc]
              rfl
            · exact hfold.2.2

/-- A gates environment whose clone and worktree creation succeed, whose lint
gate exits non-zero while every other gate exits zero, with no pull request
attached. -/
def gatesEnvW : GatesEnv :=
  ⟨.ok (), .ok "wt",
   fun g => if g.1 == "lint" then .ran 1 "bad" else .ran 0 "ok",
   none, none, none, .ok ()⟩

/-- C6 witness: with the lint gate failing and the rest passing, the gate run
ends in status success and the slice status is set to the failing variant. -/
theorem run_slice_gates_slice_update_witness :
    (run_slice_gates_job gatesEnvW (run_slice_gates_dispatch db0).1
        (run_slice_gates_dispatch db0).2).sliceStatus = "CIFailed"
    ∧ (getRun (run_slice_gates_job gatesEnvW (run_slice_gates_dispatch db0).1
        (run_slice_gates_dispatch db0).2) (run_slice_gates_dispatch db0).2).map
          RunRec.status = some "success" := by
  have h := (run_slice_gates_slice_update gatesEnvW db0
    (fun r hr => absurd hr (List.not_mem_nil _))).2 ⟨rfl, ⟨"wt", rfl⟩⟩
  refine ⟨?_, h.1⟩
  rw [h.2.1]
  decide

end Dashboard
